import Mathlib

/-!
Verification of the syft-unknown-analyzer batch orchestrator (main.go).

Strings are modelled as `List Char`; Go maps appear as association lists;
the stateful task body is embedded as an explicit operation sequence acting
on a metrics state and a file-set state.  Definitions are translated from
the source; theorems settle the specification claims.
-/

namespace UnknownAnalyzer

/-- Initial-segment test used by `strings.Contains`:
`hasPre sub s` is true when `sub` is an initial segment of `s`. -/
def hasPre : List Char → List Char → Bool
  | [], _ => true
  | _ :: _, [] => false
  | a :: as, b :: bs => a = b && hasPre as bs

/-- Embeds Go `strings.Contains(s, sub)` (argument order: `strContains sub s`):
true when `sub` occurs as a contiguous substring of `s`. -/
def strContains (sub : List Char) : List Char → Bool
  | [] => hasPre sub []
  | c :: t => hasPre sub (c :: t) || strContains sub t

/-- The fixed deny-list substring from `filterErrs` in main.go. -/
def elfDeny : List Char := "unable to determine ELF features".data

/-- Embeds `filterErrs` (main.go lines 194-203): drops every message that
contains the deny-list substring, keeps the rest in order. -/
def filterErrs : List (List Char) → List (List Char)
  | [] => []
  | err :: rest =>
    if strContains elfDeny err then filterErrs rest
    else err :: filterErrs rest

/-- Embeds syft `file.Coordinates`: a real path plus a filesystem id. -/
structure Coordinates where
  realPath : List Char
  fileSystemID : List Char
deriving DecidableEq, Repr

/-- Embeds `filterUnknowns` (main.go lines 183-192).  The Go map is modelled
as an association list; an entry whose filtered error list is empty is
deleted, otherwise it is updated with the filtered list. -/
def filterUnknowns : List (Coordinates × List (List Char)) → List (Coordinates × List (List Char))
  | [] => []
  | (k, errs) :: rest =>
    let e := filterErrs errs
    if e = [] then filterUnknowns rest
    else (k, e) :: filterUnknowns rest

/-- Embeds `escapeQuotedCsv` (main.go lines 158-160):
`strings.ReplaceAll(value, "\"", "\"\"")`, doubling every double quote. -/
def escapeQuotedCsv : List Char → List Char
  | [] => []
  | c :: rest =>
    if c = '"' then '"' :: '"' :: escapeQuotedCsv rest
    else c :: escapeQuotedCsv rest

/-- One quoted CSV field as written by the `"%s"` format verbs in main.go:
the escaped value wrapped in double quotes. -/
def formatField (f : List Char) : List Char := '"' :: (escapeQuotedCsv f ++ ['"'])

/-- A comma-separated row of quoted fields, as produced by the format string
`"%s","%s","%s","%s"` at main.go line 122. -/
def formatRow : List (List Char) → List Char
  | [] => []
  | [f] => formatField f
  | f :: fs => formatField f ++ ',' :: formatRow fs

/-- One data row as emitted by `writeLn` (main.go lines 102-105, 122): the
formatted row followed by the newline from `fmt.Fprintln`. -/
def dataRow (ref : List Char) (path : List Char) (tsk : List Char) (msg : List Char) : List Char :=
  formatRow [ref, path, tsk, msg] ++ ['\n']

/-- The report body for a list of `(path, task, message)` tuples under one
image reference: the concatenation of their data rows. -/
def writeRows (ref : List Char) : List (List Char × List Char × List Char) → List Char
  | [] => []
  | (p, t, m) :: rest => dataRow ref p t m ++ writeRows ref rest

/-- The exact header line written at main.go line 112:
the raw Go string there is `"IMAGE","FILE","TASK",ERROR"`. -/
def headerLine : List Char := "\"IMAGE\",\"FILE\",\"TASK\",ERROR\"".data

/-- Standard quote-doubling CSV field parser (fuelled for structural
recursion).  Input is the text after an opening quote; a doubled quote is a
literal quote, a lone quote closes the field. -/
def parseFieldF : Nat → List Char → Option (List Char × List Char)
  | 0, _ => none
  | _ + 1, [] => none
  | fuel + 1, c :: rest =>
    if c = '"' then
      match rest with
      | c2 :: rest2 =>
        if c2 = '"' then
          match parseFieldF fuel rest2 with
          | some (f, r) => some ('"' :: f, r)
          | none => none
        else some ([], c2 :: rest2)
      | [] => some ([], [])
    else
      match parseFieldF fuel rest with
      | some (f, r) => some (c :: f, r)
      | none => none

/-- Field parser with always-sufficient fuel. -/
def parseField (l : List Char) : Option (List Char × List Char) :=
  parseFieldF (l.length + 1) l

/-- Standard CSV record parser (fuelled): a record is one or more quoted
fields separated by commas and terminated by a newline. -/
def parseRecordF : Nat → List Char → Option (List (List Char) × List Char)
  | 0, _ => none
  | fuel + 1, l =>
    match l with
    | '"' :: rest =>
      match parseField rest with
      | some (f, ',' :: rest2) =>
        match parseRecordF fuel rest2 with
        | some (fs, r) => some (f :: fs, r)
        | none => none
      | some (f, '\n' :: rest2) => some ([f], rest2)
      | _ => none
    | _ => none

/-- Record parser with always-sufficient fuel. -/
def parseRecord (l : List Char) : Option (List (List Char) × List Char) :=
  parseRecordF (l.length + 1) l

/-- Standard CSV document parser (fuelled): a sequence of records consuming
the whole input. -/
def parseRecordsF : Nat → List Char → Option (List (List (List Char)))
  | _, [] => some []
  | 0, _ => none
  | fuel + 1, l =>
    match parseRecord l with
    | some (r, rest) =>
      match parseRecordsF fuel rest with
      | some rs => some (r :: rs)
      | none => none
    | none => none

/-- Document parser with always-sufficient fuel. -/
def parseRecords (l : List Char) : Option (List (List (List Char))) :=
  parseRecordsF (l.length + 1) l

/-- Projects a parsed four-field data row back to its
`(coordinate path, task, message)` tuple. -/
def recoverTuple : List (List Char) → List Char × List Char × List Char
  | [_, p, t, m] => (p, t, m)
  | _ => ([], [], [])

/-- Insertion step of the comparison sort used to embed `slices.Sort` and
`slices.SortFunc` (any correct comparison sort has the same contract). -/
def insertLe {α : Type} (le : α → α → Bool) (a : α) : List α → List α
  | [] => [a]
  | b :: bs => if le a b then a :: b :: bs else b :: insertLe le a bs

/-- Comparison sort embedding `slices.Sort` / `slices.SortFunc`. -/
def sortLe {α : Type} (le : α → α → Bool) : List α → List α
  | [] => []
  | a :: as => insertLe le a (sortLe le as)

/-- Lexicographic order on strings, embedding Go string comparison
(`slices.Sort` on strings, `strings.Compare`). -/
def leStr : List Char → List Char → Bool
  | [], _ => true
  | _ :: _, [] => false
  | a :: as, b :: bs => if a = b then leStr as bs else decide (a < b)

/-- One page of the remote catalog API: the decoded `results` names and the
`next` cursor (main.go lines 215-223). -/
structure Page where
  results : List (List Char)
  next : List Char

/-- Embeds `getImageList` (main.go lines 211-227): fetch the page at the
cursor, collect the names, sort them with `slices.Sort`, and return them
with the next cursor.  The HTTP fetch and JSON decode are the opaque
`fetch` collaborator. -/
def getImageList (fetch : List Char → Page) (url : List Char) : List (List Char) × List Char :=
  (sortLe leStr (fetch url).results, (fetch url).next)

/-- The fixed first-page URL (main.go line 166). -/
def startPageUrl : List Char :=
  "https://hub.docker.com/v2/repositories/library/?page_size=100".data

/-- Embeds the loop of `sourcesIterator` (main.go lines 162-181): emit each
page's sorted identifiers tagged with the running global index, advance to
the next cursor, stop when it is empty.  `fuel` bounds the number of pages
fetched (the claims quantify over finite page sequences). -/
def sourcesIteratorAux (fetch : List Char → Page) : Nat → List Char → Nat → List (Nat × List Char)
  | 0, _, _ => []
  | fuel + 1, url, idx =>
    let p := getImageList fetch url
    let emitted := List.enumFrom idx p.1
    if p.2 = [] then emitted
    else emitted ++ sourcesIteratorAux fetch fuel p.2 (idx + p.1.length)

/-- The iterator as returned by `sourcesIterator`: starts at the fixed URL
with global index 0. -/
def sourcesIterator (fetch : List Char → Page) (fuel : Nat) : List (Nat × List Char) :=
  sourcesIteratorAux fetch fuel startPageUrl 0

/-- The `": "` delimiter of main.go line 116. -/
def colonSpace : List Char := ": ".data

/-- Embeds `strings.SplitN(s, sep, 2)` for a non-empty separator: split at
the first occurrence of `sep`, or `none` when `sep` does not occur. -/
def splitFirst (sep : List Char) : List Char → Option (List Char × List Char)
  | [] => if hasPre sep [] then some ([], []) else none
  | c :: t =>
    if hasPre sep (c :: t) then some ([], (c :: t).drop sep.length)
    else
      match splitFirst sep t with
      | some (a, b) => some (c :: a, b)
      | none => none

/-- Embeds main.go lines 116-121: split a raw message on the first `": "`
into `(task, message)`; task is empty when the delimiter is absent. -/
def splitTaskMsg (err : List Char) : List Char × List Char :=
  match splitFirst colonSpace err with
  | some (t, m) => (t, m)
  | none => ([], err)

/-- One written report row (main.go line 122). -/
structure Row where
  image : List Char
  path : List Char
  task : List Char
  msg : List Char
deriving DecidableEq, Repr

/-- Go map indexing `unknownMap[coord]` on the association-list model. -/
def mapGet : List (Coordinates × List (List Char)) → Coordinates → List (List Char)
  | [], _ => []
  | (k, v) :: rest, c => if k = c then v else mapGet rest c

/-- The rows produced for one coordinate, in the original error order
(inner loop, main.go lines 113-124). -/
def rowsFor (ref : List Char) (coord : Coordinates) (errs : List (List Char)) : List Row :=
  errs.map fun err => ⟨ref, coord.realPath, (splitTaskMsg err).1, (splitTaskMsg err).2⟩

/-- Embeds main.go lines 107-124: sort the map keys by real path with
`slices.SortFunc`/`strings.Compare`, then emit each coordinate's rows. -/
def buildRows (ref : List Char) (m : List (Coordinates × List (List Char))) : List Row :=
  let keys := sortLe (fun a b => leStr a.realPath b.realPath) (m.map Prod.fst)
  (keys.map fun coord => rowsFor ref coord (mapGet m coord)).flatten

/-- The operations of the task closure submitted to the executor
(main.go lines 67-135), in program order. -/
inductive TaskOp where
  | printScanning
  | getSourceOp
  | countFiles
  | addTotal
  | createSBOM
  | filterStep
  | removeReport
  | openReport
  | writeReport
  | writeScanTime
  | printCompleted
  | dockerCleanup
  | lockOp
  | unlockOp
deriving DecidableEq, Repr

/-- The straight-line body of the task closure (main.go lines 67-135) as the
sequence of its operations.  `emptyUnknowns` selects the early return at
line 97; `dockerProvider` selects the cleanup branch at line 130.  The
source contains no lock, unlock, or channel operation anywhere, so `lockOp`
and `unlockOp` never occur in the body. -/
def taskBody (emptyUnknowns dockerProvider : Bool) : List TaskOp :=
  [.printScanning, .getSourceOp, .countFiles, .addTotal, .createSBOM, .filterStep,
    .removeReport] ++
  (if emptyUnknowns then [] else
    [.openReport, .writeReport, .writeScanTime, .printCompleted] ++
    (if dockerProvider then [.dockerCleanup] else []))

/-- Whether an operation updates shared state atomically: only
`total.Add` on the `atomic.Int64` counter (main.go lines 54, 77). -/
def isAtomicOp : TaskOp → Bool
  | .addTotal => true
  | _ => false

/-- Whether an operation is a plain write to the shared duration map
(`scanTimes[ref] = scanTime`, main.go lines 51, 127). -/
def isMapWrite : TaskOp → Bool
  | .writeScanTime => true
  | _ => false

/-- Lock-depth check: true when every map write in the sequence happens
while at least one lock is held. -/
def mapWritesGuardedFrom : Nat → List TaskOp → Bool
  | _, [] => true
  | d, op :: rest =>
    match op with
    | .lockOp => mapWritesGuardedFrom (d + 1) rest
    | .unlockOp => mapWritesGuardedFrom (d - 1) rest
    | _ =>
      if isMapWrite op && d == 0 then false
      else mapWritesGuardedFrom d rest

/-- Whether all map writes of an operation sequence are serialized under a
lock. -/
def mapWritesGuarded (ops : List TaskOp) : Bool := mapWritesGuardedFrom 0 ops

/-- The shared batch metrics (main.go lines 51, 54): the atomic total-file
counter and the per-identifier duration map (as an association list). -/
structure Metrics where
  total : Int
  scanTimes : List (List Char × Int)
deriving DecidableEq, Repr

/-- The effect of each task operation on the shared metrics: `addTotal`
adds the item's file count (line 77), `writeScanTime` records the duration
under the item's reference (line 127); nothing else touches the metrics. -/
def opEffect (ref : List Char) (fileCount : Int) (dur : Int) : TaskOp → Metrics → Metrics
  | .addTotal, m => { m with total := m.total + fileCount }
  | .writeScanTime, m => { m with scanTimes := (ref, dur) :: m.scanTimes }
  | _, m => m

/-- Running a sequence of task operations over the metrics state. -/
def runOps (ref : List Char) (fileCount : Int) (dur : Int) (ops : List TaskOp) (m : Metrics) :
    Metrics :=
  ops.foldl (fun acc op => opEffect ref fileCount dur op acc) m

/-- A task that panics at position `k` of its body executes exactly the
operations before `k`: the deferred `handlePanic` (main.go lines 68,
205-209) swallows the panic and the rest of the body is skipped. -/
def runPanicAt (ref : List Char) (fileCount : Int) (dur : Int) (ops : List TaskOp) (k : Nat)
    (m : Metrics) : Metrics :=
  runOps ref fileCount dur (ops.take k) m

/-- Standard-output lines of the program, by shape (main.go lines 69, 128,
141, 143, 207). -/
inductive Line where
  | text : List Char → Line
  | errLine : List Char → Line
  | pairLine : List Char → Int → Line
  | finalLine : Int → Int → Line
deriving DecidableEq, Repr

/-- One task execution as observed at its boundary: the lines it printed
and, when it panicked, the panic detail. -/
structure TaskRun where
  out : List Line
  panicked : Option (List Char)

/-- Embeds `handlePanic` (main.go lines 205-209): the deferred recover
prints `ERROR: <detail>` for a panic and swallows it; it prints nothing on
normal completion. -/
def handlePanic : Option (List Char) → List Line
  | none => []
  | some detail => [.errLine detail]

/-- One executor task as observed on standard output: its own prints
followed by whatever the panic handler prints; failure never escapes. -/
def runTask (t : TaskRun) : List Line :=
  t.out ++ handlePanic t.panicked

/-- Go map indexing `values[key]` used by `sorted` (main.go line 151). -/
def lookupDur : List (List Char × Int) → List Char → Int
  | [], _ => 0
  | (k, v) :: rest, c => if k = c then v else lookupDur rest c

/-- Embeds `sorted` (main.go lines 146-156): iterate the map in
lexicographically sorted key order. -/
def sortedPairs (scanTimes : List (List Char × Int)) : List (List Char × Int) :=
  (sortLe leStr (scanTimes.map Prod.fst)).map fun k => (k, lookupDur scanTimes k)

/-- The final summary printed after `executor.Wait()` (main.go lines
140-143): one line per identifier in sorted order, then the grand total
line. -/
def summaryLines (scanTimes : List (List Char × Int)) (elapsed files : Int) : List Line :=
  (sortedPairs scanTimes).map (fun p => .pairLine p.1 p.2) ++ [.finalLine elapsed files]

/-- The batch as observed on standard output: every submitted task runs to
its handled completion, then the summary is printed (main.go lines 58-143).
Task outputs are listed in some serial order; the claims proved below do
not depend on which. -/
def runBatch (tasks : List TaskRun) (scanTimes : List (List Char × Int)) (elapsed files : Int) :
    List Line :=
  (tasks.map runTask).flatten ++ summaryLines scanTimes elapsed files

/-- The results directory (main.go line 39). -/
def resultDir : List Char := "results".data

/-- Embeds main.go line 92: the per-item report path, colons replaced by
underscores. -/
def resultFilePath (ref : List Char) : List Char :=
  resultDir ++ "/unknowns-".data ++ (ref.map fun c => if c = ':' then '_' else c) ++ ".csv".data

/-- The task's effect on the result directory, modelled as the set of file
paths present (main.go lines 90-100): filter the unknowns, delete any stale
report, and create the file only when the filtered mapping is non-empty. -/
def taskFsEffect (m : List (Coordinates × List (List Char))) (ref : List Char)
    (fs : List (List Char)) : List (List Char) :=
  let fm := filterUnknowns m
  let fs1 := fs.filter (fun p => p ≠ resultFilePath ref)
  if fm = [] then fs1 else resultFilePath ref :: fs1

theorem filterErrs_eq_filter (errs : List (List Char)) :
    filterErrs errs = errs.filter (fun e => ! strContains elfDeny e) := by
  induction errs with
  | nil => rfl
  | cons e rest ih =>
    by_cases h : strContains elfDeny e = true
    · simp [filterErrs, h, List.filter, ih]
    · simp [filterErrs, h, List.filter, ih]

theorem mem_filterUnknowns (m : List (Coordinates × List (List Char)))
    (k : Coordinates) (v : List (List Char)) :
    (k, v) ∈ filterUnknowns m ↔
      ∃ errs, (k, errs) ∈ m ∧ filterErrs errs = v ∧ v ≠ [] := by
  induction m with
  | nil => simp [filterUnknowns]
  | cons p rest ih =>
    obtain ⟨k', errs'⟩ := p
    by_cases h : filterErrs errs' = []
    · show (k, v) ∈ (if filterErrs errs' = [] then filterUnknowns rest
        else (k', filterErrs errs') :: filterUnknowns rest) ↔ _
      rw [if_pos h, ih]
      constructor
      · rintro ⟨errs, hm, hf, hv⟩
        exact ⟨errs, List.mem_cons_of_mem _ hm, hf, hv⟩
      · rintro ⟨errs, hm, hf, hv⟩
        rcases List.mem_cons.mp hm with heq | hm'
        · injection heq with h1 h2
          rw [h2, h] at hf
          exact absurd hf.symm hv
        · exact ⟨errs, hm', hf, hv⟩
    · show (k, v) ∈ (if filterErrs errs' = [] then filterUnknowns rest
        else (k', filterErrs errs') :: filterUnknowns rest) ↔ _
      rw [if_neg h]
      constructor
      · intro hmem
        rcases List.mem_cons.mp hmem with heq | hm'
        · injection heq with h1 h2
          refine ⟨errs', ?_, h2.symm, ?_⟩
          · rw [h1]; exact List.mem_cons_self _ _
          · rw [h2]; exact h
        · obtain ⟨errs, hm'', hf, hv⟩ := ih.mp hm'
          exact ⟨errs, List.mem_cons_of_mem _ hm'', hf, hv⟩
      · rintro ⟨errs, hm, hf, hv⟩
        rcases List.mem_cons.mp hm with heq | hm'
        · injection heq with h1 h2
          rw [h1, ← hf, h2]
          exact List.mem_cons_self _ _
        · exact List.mem_cons_of_mem _ (ih.mpr ⟨errs, hm', hf, hv⟩)

theorem escapeQuotedCsv_length (f : List Char) : f.length ≤ (escapeQuotedCsv f).length := by
  induction f with
  | nil => simp [escapeQuotedCsv]
  | cons c rest ih =>
    by_cases h : c = '"'
    · simp [escapeQuotedCsv, h]; omega
    · simp [escapeQuotedCsv, h]; omega

theorem parseFieldF_escape (f : List Char) : ∀ (fuel : Nat) (rest : List Char),
    f.length + 1 ≤ fuel → (∀ t, rest ≠ '"' :: t) →
    parseFieldF fuel (escapeQuotedCsv f ++ '"' :: rest) = some (f, rest) := by
  induction f with
  | nil =>
    intro fuel rest hfuel hrest
    obtain ⟨k, rfl⟩ : ∃ k, fuel = k + 1 := ⟨fuel - 1, by omega⟩
    show parseFieldF (k + 1) ('"' :: rest) = some ([], rest)
    cases rest with
    | nil => rfl
    | cons c t =>
      have hc : c ≠ '"' := fun h => hrest t (by rw [h])
      show (if c = '"' then
          (match parseFieldF k t with
            | some (f, r) => some ('"' :: f, r)
            | none => none)
        else some ([], c :: t)) = some ([], c :: t)
      rw [if_neg hc]
  | cons c cs ih =>
    intro fuel rest hfuel hrest
    obtain ⟨k, rfl⟩ : ∃ k, fuel = k + 1 := ⟨fuel - 1, by omega⟩
    by_cases hc : c = '"'
    · subst hc
      show (match parseFieldF k (escapeQuotedCsv cs ++ '"' :: rest) with
          | some (f, r) => some ('"' :: f, r)
          | none => none) = some ('"' :: cs, rest)
      rw [ih k rest (by simp at hfuel; omega) hrest]
    · have he : escapeQuotedCsv (c :: cs) = c :: escapeQuotedCsv cs := by
        simp [escapeQuotedCsv, hc]
      rw [he]
      show (if c = '"' then
          (match escapeQuotedCsv cs ++ '"' :: rest with
            | c2 :: rest2 =>
              if c2 = '"' then
                (match parseFieldF k rest2 with
                  | some (f, r) => some ('"' :: f, r)
                  | none => none)
              else some ([], c2 :: rest2)
            | [] => some ([], []))
        else
          (match parseFieldF k (escapeQuotedCsv cs ++ '"' :: rest) with
            | some (f, r) => some (c :: f, r)
            | none => none)) = some (c :: cs, rest)
      rw [if_neg hc, ih k rest (by simp at hfuel; omega) hrest]

theorem parseField_escape (f rest : List Char) (hrest : ∀ t, rest ≠ '"' :: t) :
    parseField (escapeQuotedCsv f ++ '"' :: rest) = some (f, rest) := by
  unfold parseField
  apply parseFieldF_escape f _ rest _ hrest
  have := escapeQuotedCsv_length f
  simp [List.length_append]
  omega

theorem formatRow_length (fields : List (List Char)) :
    fields.length ≤ (formatRow fields).length := by
  induction fields with
  | nil => simp [formatRow]
  | cons f fs ih =>
    cases fs with
    | nil => simp [formatRow, formatField]
    | cons g gs =>
      show (f :: g :: gs).length ≤ (formatField f ++ ',' :: formatRow (g :: gs)).length
      simp only [List.length_cons, List.length_append, formatField] at *
      omega

theorem parseRecordF_formatRow : ∀ (fields : List (List Char)) (fuel : Nat) (rest : List Char),
    fields ≠ [] → fields.length ≤ fuel →
    parseRecordF fuel (formatRow fields ++ '\n' :: rest) = some (fields, rest) := by
  intro fields
  induction fields with
  | nil => intro fuel rest hne; exact absurd rfl hne
  | cons f fs ih =>
    intro fuel rest _ hfuel
    obtain ⟨k, rfl⟩ : ∃ k, fuel = k + 1 := ⟨fuel - 1, by simp at hfuel; omega⟩
    have hnl : ∀ t, ('\n' :: rest) ≠ '"' :: t := by
      intro t h; injection h with h1 _; exact absurd h1 (by decide)
    cases fs with
    | nil =>
      show parseRecordF (k + 1) (formatField f ++ '\n' :: rest) = some ([f], rest)
      have hsh : formatField f ++ '\n' :: rest =
          '"' :: (escapeQuotedCsv f ++ '"' :: ('\n' :: rest)) := by
        simp [formatField]
      rw [hsh]
      show (match parseField (escapeQuotedCsv f ++ '"' :: ('\n' :: rest)) with
        | some (f, ',' :: rest2) =>
          (match parseRecordF k rest2 with
            | some (fs, r) => some (f :: fs, r)
            | none => none)
        | some (f, '\n' :: rest2) => some ([f], rest2)
        | _ => none) = some ([f], rest)
      rw [parseField_escape f ('\n' :: rest) hnl]
      rfl
    | cons g gs =>
      show parseRecordF (k + 1) ((formatField f ++ ',' :: formatRow (g :: gs)) ++ '\n' :: rest) =
        some (f :: g :: gs, rest)
      have hcm : ∀ t, (',' :: (formatRow (g :: gs) ++ '\n' :: rest)) ≠ '"' :: t := by
        intro t h; injection h with h1 _; exact absurd h1 (by decide)
      have hsh : (formatField f ++ ',' :: formatRow (g :: gs)) ++ '\n' :: rest =
          '"' :: (escapeQuotedCsv f ++ '"' :: (',' :: (formatRow (g :: gs) ++ '\n' :: rest))) := by
        simp [formatField]
      rw [hsh]
      show (match parseField (escapeQuotedCsv f ++ '"' ::
            (',' :: (formatRow (g :: gs) ++ '\n' :: rest))) with
        | some (f, ',' :: rest2) =>
          (match parseRecordF k rest2 with
            | some (fs, r) => some (f :: fs, r)
            | none => none)
        | some (f, '\n' :: rest2) => some ([f], rest2)
        | _ => none) = some (f :: g :: gs, rest)
      rw [parseField_escape f (',' :: (formatRow (g :: gs) ++ '\n' :: rest)) hcm]
      show (match parseRecordF k (formatRow (g :: gs) ++ '\n' :: rest) with
        | some (fs, r) => some (f :: fs, r)
        | none => none) = some (f :: g :: gs, rest)
      rw [ih k rest (by simp) (by simp at hfuel ⊢; omega)]

theorem parseRecord_formatRow (fields : List (List Char)) (rest : List Char) (hne : fields ≠ []) :
    parseRecord (formatRow fields ++ '\n' :: rest) = some (fields, rest) := by
  unfold parseRecord
  apply parseRecordF_formatRow fields _ rest hne
  have := formatRow_length fields
  simp [List.length_append]
  omega

theorem writeRows_length (ref : List Char) (rows : List (List Char × List Char × List Char)) :
    rows.length ≤ (writeRows ref rows).length := by
  induction rows with
  | nil => simp [writeRows]
  | cons r rest ih =>
    obtain ⟨p, t, m⟩ := r
    show ((p, t, m) :: rest).length ≤ (dataRow ref p t m ++ writeRows ref rest).length
    simp only [List.length_cons, List.length_append, dataRow, List.length_nil] at *
    omega

theorem parseRecordsF_cons (fuel : Nat) (c : Char) (cs : List Char) :
    parseRecordsF (fuel + 1) (c :: cs) =
      match parseRecord (c :: cs) with
      | some (r, rest) =>
        match parseRecordsF fuel rest with
        | some rs => some (r :: rs)
        | none => none
      | none => none := rfl

theorem parseRecordsF_writeRows (ref : List Char) :
    ∀ (rows : List (List Char × List Char × List Char)) (fuel : Nat),
    rows.length + 1 ≤ fuel →
    parseRecordsF fuel (writeRows ref rows) =
      some (rows.map fun r => [ref, r.1, r.2.1, r.2.2]) := by
  intro rows
  induction rows with
  | nil =>
    intro fuel _
    show parseRecordsF fuel [] = some []
    cases fuel <;> rfl
  | cons r rows ih =>
    obtain ⟨p, t, m⟩ := r
    intro fuel hfuel
    obtain ⟨k, rfl⟩ : ∃ k, fuel = k + 1 := ⟨fuel - 1, by simp at hfuel; omega⟩
    have hrec := parseRecord_formatRow [ref, p, t, m] (writeRows ref rows) (by simp)
    have hshape : writeRows ref ((p, t, m) :: rows) =
        formatRow [ref, p, t, m] ++ '\n' :: writeRows ref rows := by
      show dataRow ref p t m ++ writeRows ref rows = _
      simp [dataRow]
    show parseRecordsF (k + 1) (writeRows ref ((p, t, m) :: rows)) = _
    rw [hshape]
    rcases hx : formatRow [ref, p, t, m] ++ '\n' :: writeRows ref rows with _ | ⟨c, cs⟩
    · exact absurd hx (by simp [formatRow, formatField])
    · rw [parseRecordsF_cons, ← hx, hrec]
      show (match parseRecordsF k (writeRows ref rows) with
        | some rs => some ([ref, p, t, m] :: rs)
        | none => none) = some (((p, t, m) :: rows).map fun r => [ref, r.1, r.2.1, r.2.2])
      rw [ih k (by simp at hfuel ⊢; omega)]
      simp

/-- C3: the multi-provider report header as written by the code.  The raw Go
string at main.go line 112 is `"IMAGE","FILE","TASK",ERROR"`: the fourth
field name is missing its opening quote, so the written header differs from
the fully quoted `"IMAGE","FILE","TASK","ERROR"` and is not parseable as a
record of quoted fields, while the fully quoted header is. -/
theorem C3_header_not_fully_quoted :
    headerLine ≠ formatRow ["IMAGE".data, "FILE".data, "TASK".data, "ERROR".data] ∧
    parseRecord (headerLine ++ ['\n']) = none ∧
    parseRecord (formatRow ["IMAGE".data, "FILE".data, "TASK".data, "ERROR".data] ++ ['\n']) =
      some (["IMAGE".data, "FILE".data, "TASK".data, "ERROR".data], []) := by decide

/-- C6: for every row set written to a report file, parsing the produced CSV
data rows back with the standard quote-doubling rule reconstructs exactly
the original `(coordinate, task, message)` tuples, in order. -/
theorem C6_csv_roundtrip (ref : List Char) (rows : List (List Char × List Char × List Char)) :
    parseRecords (writeRows ref rows) = some (rows.map fun r => [ref, r.1, r.2.1, r.2.2]) ∧
    ((rows.map fun r => [ref, r.1, r.2.1, r.2.2]).map recoverTuple = rows) := by
  constructor
  · unfold parseRecords
    apply parseRecordsF_writeRows
    have := writeRows_length ref rows
    omega
  · induction rows with
    | nil => rfl
    | cons r rest ih =>
      obtain ⟨p, t, m⟩ := r
      simp only [List.map_cons, recoverTuple, ih]

/-- C8: filtering drops exactly the messages containing the deny-list
substring `unable to determine ELF features` (the sample raw error
`unable to determine ELF features: bad magic` is dropped entirely), and a
coordinate whose filtered error list becomes empty is removed from the
mapping rather than kept with an empty list. -/
theorem C8_filter_denylist :
    (∀ errs, filterErrs errs = errs.filter fun e => ! strContains elfDeny e) ∧
    filterErrs ["unable to determine ELF features: bad magic".data] = [] ∧
    ∀ (m : List (Coordinates × List (List Char))) (k : Coordinates) (v : List (List Char)),
      ((k, v) ∈ filterUnknowns m ↔ ∃ errs, (k, errs) ∈ m ∧ filterErrs errs = v ∧ v ≠ []) :=
  ⟨filterErrs_eq_filter, by decide, mem_filterUnknowns⟩

/-- C9: the result filter is idempotent on every error-message sequence; it
is a pure function of its input. -/
theorem C9_filter_idempotent (xs : List (List Char)) :
    filterErrs (filterErrs xs) = filterErrs xs := by
  rw [filterErrs_eq_filter, filterErrs_eq_filter, List.filter_filter]
  simp

theorem mem_insertLe {α : Type} (le : α → α → Bool) (a b : α) (l : List α) :
    b ∈ insertLe le a l ↔ b = a ∨ b ∈ l := by
  induction l with
  | nil => simp [insertLe]
  | cons c cs ih =>
    by_cases h : le a c = true
    · simp only [insertLe, if_pos h, List.mem_cons]
    · simp only [insertLe, if_neg h, List.mem_cons, ih]
      tauto

theorem mem_sortLe {α : Type} (le : α → α → Bool) (b : α) (l : List α) :
    b ∈ sortLe le l ↔ b ∈ l := by
  induction l with
  | nil => simp [sortLe]
  | cons a as ih =>
    show b ∈ insertLe le a (sortLe le as) ↔ _
    rw [mem_insertLe, ih]
    simp

theorem pairwise_insertLe {α : Type} (le : α → α → Bool)
    (htot : ∀ a b, le a b = true ∨ le b a = true)
    (htrans : ∀ a b c, le a b = true → le b c = true → le a c = true)
    (a : α) (l : List α) (h : List.Pairwise (fun x y => le x y = true) l) :
    List.Pairwise (fun x y => le x y = true) (insertLe le a l) := by
  induction l with
  | nil => simp [insertLe]
  | cons b bs ih =>
    rcases List.pairwise_cons.mp h with ⟨hb, hbs⟩
    by_cases hab : le a b = true
    · show List.Pairwise _ (if le a b = true then a :: b :: bs else b :: insertLe le a bs)
      rw [if_pos hab]
      refine List.pairwise_cons.mpr ⟨?_, h⟩
      intro y hy
      rcases List.mem_cons.mp hy with rfl | hy'
      · exact hab
      · exact htrans a b y hab (hb y hy')
    · show List.Pairwise _ (if le a b = true then a :: b :: bs else b :: insertLe le a bs)
      rw [if_neg hab]
      refine List.pairwise_cons.mpr ⟨?_, ih hbs⟩
      intro y hy
      rcases (mem_insertLe le a y bs).mp hy with h2 | hy'
      · rw [h2]
        rcases htot a b with h1 | h1
        · exact absurd h1 hab
        · exact h1
      · exact hb y hy'

theorem pairwise_sortLe {α : Type} (le : α → α → Bool)
    (htot : ∀ a b, le a b = true ∨ le b a = true)
    (htrans : ∀ a b c, le a b = true → le b c = true → le a c = true)
    (l : List α) :
    List.Pairwise (fun x y => le x y = true) (sortLe le l) := by
  induction l with
  | nil => simp [sortLe]
  | cons a as ih => exact pairwise_insertLe le htot htrans a _ ih

theorem leStr_refl (a : List Char) : leStr a a = true := by
  induction a with
  | nil => rfl
  | cons c cs ih => simp [leStr, ih]

theorem leStr_total (a b : List Char) : leStr a b = true ∨ leStr b a = true := by
  induction a generalizing b with
  | nil => left; rfl
  | cons x xs ih =>
    cases b with
    | nil => right; rfl
    | cons y ys =>
      by_cases hxy : x = y
      · subst hxy
        rcases ih ys with h | h
        · left; simp [leStr, h]
        · right; simp [leStr, h]
      · rcases lt_or_gt_of_ne hxy with h | h
        · left; simp [leStr, hxy, h]
        · right; simp [leStr, Ne.symm hxy, h]

theorem leStr_trans (a b c : List Char) (hab : leStr a b = true) (hbc : leStr b c = true) :
    leStr a c = true := by
  induction a generalizing b c with
  | nil => rfl
  | cons x xs ih =>
    cases b with
    | nil => simp [leStr] at hab
    | cons y ys =>
      cases c with
      | nil => simp [leStr] at hbc
      | cons z zs =>
        by_cases hxy : x = y <;> by_cases hyz : y = z
        · subst hxy; subst hyz
          simp only [leStr, if_pos rfl] at hab hbc ⊢
          exact ih ys zs hab hbc
        · subst hxy
          simp only [leStr, if_pos rfl] at hab
          simp only [leStr, if_neg hyz] at hbc ⊢
          exact hbc
        · subst hyz
          simp only [leStr, if_neg hxy] at hab ⊢
          exact hab
        · simp only [leStr, if_neg hxy] at hab
          simp only [leStr, if_neg hyz] at hbc
          rw [decide_eq_true_eq] at hab hbc
          have hxz : x < z := lt_trans hab hbc
          simp [leStr, ne_of_lt hxz, hxz]

theorem sourcesIteratorAux_map_fst (fetch : List Char → Page) :
    ∀ (fuel : Nat) (url : List Char) (idx : Nat),
    (sourcesIteratorAux fetch fuel url idx).map Prod.fst =
      List.range' idx (sourcesIteratorAux fetch fuel url idx).length := by
  intro fuel
  induction fuel with
  | zero => intro url idx; rfl
  | succ k ih =>
    intro url idx
    by_cases h : (getImageList fetch url).2 = []
    · simp only [sourcesIteratorAux, h, if_pos]
      rw [List.enumFrom_map_fst]
      simp [List.enumFrom_length]
    · simp only [sourcesIteratorAux, h, eq_self_iff_true, if_false, List.map_append,
        List.length_append]
      rw [List.enumFrom_map_fst, ih, List.enumFrom_length]
      have happ := List.range'_append idx ((getImageList fetch url).1.length)
        ((sourcesIteratorAux fetch k (getImageList fetch url).2
          (idx + (getImageList fetch url).1.length)).length) 1
      simp only [one_mul] at happ
      rw [happ]
      congr 1
      omega

/-- C5: the iterator sorts each page's identifiers lexicographically before
emitting them, tags them with strictly increasing global indices starting
at 0 (so no index is ever emitted twice), stops when the next cursor is
empty, and every consumer-side early-termination prefix keeps these index
properties. -/
theorem C5_iterator (fetch : List Char → Page) (fuel : Nat) :
    ((sourcesIterator fetch fuel).map Prod.fst =
      List.range (sourcesIterator fetch fuel).length) ∧
    List.Pairwise (fun a b => a.1 < b.1) (sourcesIterator fetch fuel) ∧
    (∀ url, List.Pairwise (fun a b => leStr a b = true) (getImageList fetch url).1) ∧
    (∀ url idx, (fetch url).next = [] →
      sourcesIteratorAux fetch (fuel + 1) url idx =
        List.enumFrom idx (sortLe leStr (fetch url).results)) ∧
    (∀ n, ((sourcesIterator fetch fuel).take n).map Prod.fst =
      (List.range (sourcesIterator fetch fuel).length).take n) := by
  have hmap : (sourcesIterator fetch fuel).map Prod.fst =
      List.range (sourcesIterator fetch fuel).length := by
    rw [List.range_eq_range']
    exact sourcesIteratorAux_map_fst fetch fuel startPageUrl 0
  refine ⟨hmap, ?_, ?_, ?_, ?_⟩
  · have h := List.pairwise_lt_range (sourcesIterator fetch fuel).length
    rw [← hmap] at h
    exact List.pairwise_map.mp h
  · intro url
    exact pairwise_sortLe leStr leStr_total leStr_trans (fetch url).results
  · intro url idx h
    simp only [sourcesIteratorAux, getImageList]
    rw [if_pos h]
  · intro n
    rw [List.map_take, hmap]

/-- Witness for C5: a one-page catalog with `next` empty; the page
`[zlib, alpine]` is emitted sorted as `(0, alpine), (1, zlib)`. -/
theorem C5_iterator_witness :
    sourcesIteratorAux (fun _ => ⟨["zlib".data, "alpine".data], []⟩) 1 startPageUrl 0 =
      List.enumFrom 0 (sortLe leStr ["zlib".data, "alpine".data]) ∧
    sortLe leStr ["zlib".data, "alpine".data] = ["alpine".data, "zlib".data] := by
  constructor
  · exact (C5_iterator (fun _ => ⟨["zlib".data, "alpine".data], []⟩) 0).2.2.2.1
      startPageUrl 0 rfl
  · decide

theorem pairwise_of_all {α : Type} {R : α → α → Prop} (h : ∀ a b, R a b) (l : List α) :
    List.Pairwise R l := by
  induction l with
  | nil => exact List.Pairwise.nil
  | cons a as ih => exact List.pairwise_cons.mpr ⟨fun y _ => h a y, ih⟩

theorem splitFirst_none_of_not_contains (sep : List Char) (e : List Char)
    (h : strContains sep e = false) : splitFirst sep e = none := by
  induction e with
  | nil =>
    have hp : hasPre sep [] = false := h
    simp [splitFirst, hp]
  | cons c t ih =>
    have hor : (hasPre sep (c :: t) || strContains sep t) = false := h
    rcases Bool.or_eq_false_iff.mp hor with ⟨h1, h2⟩
    simp only [splitFirst, h1, Bool.false_eq_true, if_false, ih h2]

theorem splitTaskMsg_no_delim (e : List Char) (h : strContains colonSpace e = false) :
    splitTaskMsg e = ([], e) := by
  unfold splitTaskMsg
  rw [splitFirst_none_of_not_contains colonSpace e h]

theorem mapGet_eq_of_mem (m : List (Coordinates × List (List Char))) (k : Coordinates)
    (errs : List (List Char)) (hnd : (m.map Prod.fst).Nodup) (hm : (k, errs) ∈ m) :
    mapGet m k = errs := by
  induction m with
  | nil => cases hm
  | cons p rest ih =>
    obtain ⟨k', v'⟩ := p
    rw [List.map_cons, List.nodup_cons] at hnd
    obtain ⟨hk', hrest⟩ := hnd
    rcases List.mem_cons.mp hm with heq | hm'
    · injection heq with h1 h2
      show (if k' = k then v' else mapGet rest k) = errs
      rw [if_pos h1.symm, h2]
    · show (if k' = k then v' else mapGet rest k) = errs
      have hne : k' ≠ k := by
        intro hkk
        exact hk' (hkk ▸ List.mem_map.mpr ⟨(k, errs), hm', rfl⟩)
      rw [if_neg hne]
      exact ih hrest hm'

theorem rowsFor_path (ref : List Char) (k : Coordinates) (errs : List (List Char))
    (r : Row) (hr : r ∈ rowsFor ref k errs) : r.path = k.realPath := by
  obtain ⟨e, _, rfl⟩ := List.mem_map.mp hr
  rfl

theorem buildRows_pairwise (ref : List Char) (m : List (Coordinates × List (List Char))) :
    List.Pairwise (fun r₁ r₂ => leStr r₁.path r₂.path = true) (buildRows ref m) := by
  simp only [buildRows]
  apply List.pairwise_flatten.mpr
  constructor
  · intro l hl
    obtain ⟨coord, _, rfl⟩ := List.mem_map.mp hl
    apply List.pairwise_map.mpr
    exact pairwise_of_all (fun a b => leStr_refl coord.realPath) _
  · apply List.pairwise_map.mpr
    have hkeys : List.Pairwise (fun a b : Coordinates => leStr a.realPath b.realPath = true)
        (sortLe (fun a b => leStr a.realPath b.realPath) (m.map Prod.fst)) :=
      pairwise_sortLe (fun a b : Coordinates => leStr a.realPath b.realPath)
        (fun a b => leStr_total a.realPath b.realPath)
        (fun a b c => leStr_trans a.realPath b.realPath c.realPath) _
    refine hkeys.imp ?_
    intro a b hab x hx y hy
    rw [rowsFor_path ref a _ x hx, rowsFor_path ref b _ y hy]
    exact hab

theorem buildRows_block (ref : List Char) (m : List (Coordinates × List (List Char)))
    (k : Coordinates) (errs : List (List Char))
    (hnd : (m.map Prod.fst).Nodup) (hm : (k, errs) ∈ m) :
    ∃ pre post, buildRows ref m = pre ++ rowsFor ref k errs ++ post := by
  have hk : k ∈ sortLe (fun a b => leStr a.realPath b.realPath) (m.map Prod.fst) :=
    (mem_sortLe _ _ _).mpr (List.mem_map.mpr ⟨(k, errs), hm, rfl⟩)
  obtain ⟨s, t, hst⟩ := List.append_of_mem hk
  refine ⟨(s.map fun c => rowsFor ref c (mapGet m c)).flatten,
          (t.map fun c => rowsFor ref c (mapGet m c)).flatten, ?_⟩
  simp only [buildRows]
  rw [hst, List.map_append, List.map_cons, List.flatten_append, List.flatten_cons,
    mapGet_eq_of_mem m k errs hnd hm, List.append_assoc]

/-- C7: data rows are ordered by the coordinate's real path, ascending
lexicographically; each coordinate's surviving errors form one contiguous
block of rows in the original error order; each raw message is split on the
first `": "` occurrence into a `(task, message)` pair (the sample error
`go-binary-cataloger: unable to parse symbols` yields task
`go-binary-cataloger` and message `unable to parse symbols`), with an empty
task when the delimiter is absent. -/
theorem C7_row_order_and_split (ref : List Char) (m : List (Coordinates × List (List Char))) :
    List.Pairwise (fun r₁ r₂ => leStr r₁.path r₂.path = true) (buildRows ref m) ∧
    (∀ k errs, (m.map Prod.fst).Nodup → (k, errs) ∈ m →
      ∃ pre post, buildRows ref m = pre ++ rowsFor ref k errs ++ post) ∧
    splitTaskMsg "go-binary-cataloger: unable to parse symbols".data =
      ("go-binary-cataloger".data, "unable to parse symbols".data) ∧
    (∀ e, strContains colonSpace e = false → splitTaskMsg e = ([], e)) :=
  ⟨buildRows_pairwise ref m,
   fun k errs hnd hm => buildRows_block ref m k errs hnd hm,
   by decide,
   splitTaskMsg_no_delim⟩

/-- Witness for C7 at a concrete two-coordinate mapping and a concrete
delimiter-free message. -/
theorem C7_row_order_and_split_witness :
    (∃ pre post,
      buildRows "img:latest".data
        [(⟨"b".data, "fs".data⟩, ["x: y".data]), (⟨"a".data, "fs".data⟩, ["p".data])] =
        pre ++ rowsFor "img:latest".data ⟨"a".data, "fs".data⟩ ["p".data] ++ post) ∧
    splitTaskMsg "nodelim".data = ([], "nodelim".data) := by
  constructor
  · exact (C7_row_order_and_split "img:latest".data
      [(⟨"b".data, "fs".data⟩, ["x: y".data]), (⟨"a".data, "fs".data⟩, ["p".data])]).2.1
      ⟨"a".data, "fs".data⟩ ["p".data] (by decide) (by decide)
  · exact (C7_row_order_and_split "img:latest".data []).2.2.2 "nodelim".data (by decide)

/-- C1: every panic inside a task body is caught at the task boundary by the
deferred recover, printed as an `ERROR: <detail>` line on standard output,
and swallowed; the output contributed by sibling tasks does not depend on
the failing task, and the batch always reaches the final sorted summary and
grand total line no matter how many tasks failed. -/
theorem C1_fault_isolation :
    (∀ out detail, runTask ⟨out, some detail⟩ = out ++ [Line.errLine detail]) ∧
    (∀ ts₁ ts₂ st el fi, ∃ a b, ∀ t, runBatch (ts₁ ++ t :: ts₂) st el fi =
      a ++ (runTask t ++ (b ++ summaryLines st el fi))) ∧
    (∀ ts st el fi, ∃ pre, runBatch ts st el fi = pre ++ [Line.finalLine el fi]) ∧
    (∀ st, List.Pairwise (fun p q => leStr p.1 q.1 = true) (sortedPairs st)) := by
  refine ⟨fun out detail => rfl, ?_, ?_, ?_⟩
  · intro ts₁ ts₂ st el fi
    refine ⟨(ts₁.map runTask).flatten, (ts₂.map runTask).flatten, ?_⟩
    intro t
    simp [runBatch, List.map_append, List.flatten_append, List.append_assoc]
  · intro ts st el fi
    refine ⟨(ts.map runTask).flatten ++ (sortedPairs st).map (fun p => .pairLine p.1 p.2), ?_⟩
    simp [runBatch, summaryLines, List.append_assoc]
  · intro st
    simp only [sortedPairs]
    apply List.pairwise_map.mpr
    exact pairwise_sortLe leStr leStr_total leStr_trans _

/-- C2: refuted by the code: the duration-map write `scanTimes[ref] =
scanTime` (main.go line 127) runs inside the executor task body, and the
program contains no lock, unlock, or channel operation at all, so the write
is not serialized by any synchronization mechanism; only the total-files
counter update is atomic. -/
theorem C2_scanTimes_unsynchronized :
    mapWritesGuarded (taskBody false false) = false ∧
    mapWritesGuarded (taskBody false true) = false ∧
    TaskOp.writeScanTime ∈ taskBody false false ∧
    isAtomicOp .addTotal = true ∧
    isAtomicOp .writeScanTime = false ∧
    (∀ e d, TaskOp.lockOp ∉ taskBody e d ∧ TaskOp.unlockOp ∉ taskBody e d) := by
  refine ⟨by decide, by decide, by decide, rfl, rfl, ?_⟩
  intro e d
  cases e <;> cases d <;> exact (by decide)

/-- C4: when an item's filtered error mapping is empty, the task leaves no
report file at the item's report path: any stale file is removed and no new
file is created. -/
theorem C4_no_file_when_empty (m : List (Coordinates × List (List Char))) (ref : List Char)
    (fs : List (List Char)) (h : filterUnknowns m = []) :
    resultFilePath ref ∉ taskFsEffect m ref fs := by
  simp [taskFsEffect, h, List.mem_filter]

/-- Witness for C4: an item whose only error is deny-listed; the stale
report at the item's path disappears and no report exists afterwards. -/
theorem C4_no_file_when_empty_witness :
    resultFilePath "nginx:latest".data ∉
      taskFsEffect
        [(⟨"/bin/sh".data, "fs".data⟩,
          ["unable to determine ELF features: bad magic".data])]
        "nginx:latest".data
        [resultFilePath "nginx:latest".data] :=
  C4_no_file_when_empty
    [(⟨"/bin/sh".data, "fs".data⟩,
      ["unable to determine ELF features: bad magic".data])]
    "nginx:latest".data
    [resultFilePath "nginx:latest".data]
    (by decide)

/-- C10: metrics updates inside one task are not atomic on failure: the file
count is added to the total immediately after source acquisition (position 3
of the body) and before the scan (position 4), and the duration is recorded
(position 9) only after the report write (position 8), so a task panicking
at the scan has already contributed its files to the total while its
identifier never appears in the duration table. -/
theorem C10_nonatomic_metrics (ref : List Char) (fileCount dur : Int) (m : Metrics)
    (h : ∀ p ∈ m.scanTimes, p.1 ≠ ref) :
    ∃ k, (taskBody false false)[k]? = some .createSBOM ∧
      (runPanicAt ref fileCount dur (taskBody false false) k m).total = m.total + fileCount ∧
      (∀ p ∈ (runPanicAt ref fileCount dur (taskBody false false) k m).scanTimes,
        p.1 ≠ ref) ∧
      (taskBody false false)[k - 1]? = some .addTotal ∧
      ((taskBody false false)[8]? = some .writeReport ∧
        (taskBody false false)[9]? = some .writeScanTime) :=
  ⟨4, rfl, rfl, fun p hp => h p hp, rfl, rfl, rfl⟩

/-- Witness for C10 at concrete inputs: file count 42 counted, empty
duration table stays empty past the panic point. -/
theorem C10_nonatomic_metrics_witness :
    ∃ k, (taskBody false false)[k]? = some .createSBOM ∧
      (runPanicAt "nginx:latest".data 42 7 (taskBody false false) k ⟨0, []⟩).total = 0 + 42 ∧
      (∀ p ∈ (runPanicAt "nginx:latest".data 42 7 (taskBody false false) k ⟨0, []⟩).scanTimes,
        p.1 ≠ "nginx:latest".data) ∧
      (taskBody false false)[k - 1]? = some .addTotal ∧
      ((taskBody false false)[8]? = some .writeReport ∧
        (taskBody false false)[9]? = some .writeScanTime) :=
  C10_nonatomic_metrics "nginx:latest".data 42 7 ⟨0, []⟩ (by simp)

end UnknownAnalyzer
